import Mathlib

/-!
Verification of the directory-enumeration interface declared in
`msdos/dir.h` (`opendir`, `readdir`, `telldir`, `seekdir`, `rewinddir`,
`closedir`), together with its data layout (`struct direct`,
`struct _dir_struc`) and the `DIRSIZ` macro.

The header declares the interface only; the directory-walking
implementation is not part of the repository excerpt.  The operations
below are therefore modelled from the specification of the
DirectoryStream component, while `DIRSIZ` and the declared C return
types are embedded directly from the header text.
-/

namespace MsdosDir

/-- Error kinds of the DirectoryStream component: `NotFound`,
`NotADirectory`, `PermissionDenied` on open; `InvalidPosition` on seek
with a foreign or stale token; `UseAfterClose` on any operation after
close; `NameTooLong` when an entry name exceeds the short-name limit. -/
inductive DirError where
  | NotFound
  | NotADirectory
  | PermissionDenied
  | InvalidPosition
  | UseAfterClose
  | NameTooLong
  deriving DecidableEq

deriving instance DecidableEq for Except

/-- The short-name limit: 12 usable characters, matching the 13-byte
`d_name` buffer of `struct direct` (12 characters plus terminator). -/
def NAME_MAX : Nat := 12

/-- A raw directory entry as captured from the underlying filesystem at
open time: an inode number and a name (a character sequence). -/
structure RawEntry where
  inode : Nat
  name : List Char
  deriving DecidableEq

/-- A name is valid when it stays within the short-name limit and
contains no null character. -/
def validName (n : List Char) : Bool :=
  n.length ≤ NAME_MAX && !(n.contains (Char.ofNat 0))

/-- `struct direct`: inode number `d_ino`, name length `d_namlen`, and
file name `d_name` (null-free, at most `NAME_MAX` usable characters). -/
structure DirectoryEntry where
  d_ino : Nat
  d_name : List Char
  d_namlen : Nat
  deriving DecidableEq

/-- Builds the `DirectoryEntry` returned to the caller from a raw
entry; `d_namlen` counts the characters of the name, terminator
excluded. -/
def mkEntry (r : RawEntry) : DirectoryEntry :=
  ⟨r.inode, r.name, r.name.length⟩

/-- Modelled from the spec: `struct _dir_struc` (the `DIR` stream
state).  The raw `start`/`curr` character pointers of the header become
a base index and a current index into the entry sequence captured at
open time; `streamId` identifies the stream instance so that a position
token can be recognised as foreign or stale; `closed` records the
Open/Closed state. -/
structure DirStream where
  streamId : Nat
  entries : List RawEntry
  base : Nat
  pos : Nat
  closed : Bool
  deriving DecidableEq

/-- An opaque position token: the identity of the stream it came from
and the position it denotes. -/
structure PosToken where
  streamId : Nat
  pos : Nat
  deriving DecidableEq

/-- A node of the modelled filesystem: a regular file, or a directory
with a readability flag and its entry sequence. -/
inductive FSNode where
  | file
  | dir (readable : Bool) (entries : List RawEntry)
  deriving DecidableEq

/-- Path lookup in a modelled filesystem (an association list from
paths to nodes). -/
def fsLookup : List (List Char × FSNode) → List Char → Option FSNode
  | [], _ => none
  | (k, v) :: rest, p => if k = p then some v else fsLookup rest p

/-- Modelled from the spec: `opendir`.  Validates that the path names
an accessible directory, captures its entry sequence, and returns a
stream positioned at the first entry; fails with `NotFound`,
`NotADirectory` or `PermissionDenied` otherwise.  `fresh` is the
identity given to the new stream instance. -/
def opendir (fs : List (List Char × FSNode)) (path : List Char)
    (fresh : Nat) : Except DirError DirStream :=
  match fsLookup fs path with
  | none => .error .NotFound
  | some .file => .error .NotADirectory
  | some (.dir readable es) =>
      if readable then .ok ⟨fresh, es, 0, 0, false⟩
      else .error .PermissionDenied

/-- The outcome of a successful `readdir`: an entry, or the
end-of-sequence signal (a normal outcome, not an error). -/
inductive ReadResult where
  | entry (e : DirectoryEntry)
  | endOfSequence
  deriving DecidableEq

/-- Indexing into a list of entries. -/
def nth : List RawEntry → Nat → Option RawEntry
  | [], _ => none
  | a :: _, 0 => some a
  | _ :: l, n + 1 => nth l n

/-- Modelled from the spec: `readdir`.  Produces the entry at the
current position and advances, returns the end-of-sequence signal once
all entries have been produced, fails with `UseAfterClose` on a closed
stream, and fails explicitly with `NameTooLong` (rather than
truncating) on an over-long or null-containing name. -/
def readdir (d : DirStream) : Except DirError (ReadResult × DirStream) :=
  if d.closed then .error .UseAfterClose
  else
    match nth d.entries d.pos with
    | none => .ok (.endOfSequence, d)
    | some raw =>
        if validName raw.name then
          .ok (.entry (mkEntry raw), { d with pos := d.pos + 1 })
        else .error .NameTooLong

/-- Modelled from the spec: `telldir`.  Returns a token describing the
current position, usable later with `seekdir` on the same stream. -/
def telldir (d : DirStream) : Except DirError PosToken :=
  if d.closed then .error .UseAfterClose
  else .ok ⟨d.streamId, d.pos⟩

/-- Modelled from the spec: `seekdir`.  Sets the current position to
the one denoted by the token; fails with `InvalidPosition` when the
token does not denote a position of this stream instance, and with
`UseAfterClose` on a closed stream. -/
def seekdir (d : DirStream) (t : PosToken) : Except DirError DirStream :=
  if d.closed then .error .UseAfterClose
  else if t.streamId = d.streamId ∧ d.base ≤ t.pos ∧
      t.pos ≤ d.entries.length then
    .ok { d with pos := t.pos }
  else .error .InvalidPosition

/-- Modelled from the spec: `rewinddir`.  Resets enumeration to the
first entry without reopening. -/
def rewinddir (d : DirStream) : Except DirError DirStream :=
  if d.closed then .error .UseAfterClose
  else .ok { d with pos := d.base }

/-- Modelled from the spec: `closedir`.  Releases the stream; after it,
all further operations on the stream fail with `UseAfterClose`. -/
def closedir (d : DirStream) : Except DirError DirStream :=
  if d.closed then .error .UseAfterClose
  else .ok { d with closed := true }

/-- Runs `k` successive `readdir` calls, collecting the results. -/
def runReads : Nat → DirStream → Except DirError (List ReadResult × DirStream)
  | 0, d => .ok ([], d)
  | k + 1, d =>
    match readdir d with
    | .error e => .error e
    | .ok (r, d1) =>
      match runReads k d1 with
      | .error e => .error e
      | .ok (rs, d2) => .ok (r :: rs, d2)

/-- The stream invariant: the current position lies within the bounds
established at open time (base position ≤ current position ≤
end-of-sequence marker). -/
abbrev streamInv (d : DirStream) : Prop :=
  d.base ≤ d.pos ∧ d.pos ≤ d.entries.length

/-- Sizes (in bytes) of the C types on the 16-bit MS-DOS target:
`ino_t`. -/
def sizeof_ino_t : Nat := 2

/-- Size (in bytes) of `int` on the 16-bit MS-DOS target. -/
def sizeof_int : Nat := 2

/-- Size (in bytes) of the `d_name` buffer: `char d_name[13]`. -/
def sizeof_d_name : Nat := 13

/-- `sizeof(struct direct)`: the three fields `d_ino`, `d_namlen`,
`d_name` laid out without padding. -/
def sizeof_direct : Nat := sizeof_ino_t + sizeof_int + sizeof_d_name

/-- The `DIRSIZ` macro of the header:
`#define DIRSIZ(rp) (sizeof(struct direct))` — the argument `rp` does
not occur in the expansion. -/
def DIRSIZ {α : Type} (rp : α) : Nat := sizeof_direct

/-- The C return types that occur in the header's six prototypes. -/
inductive CRetType where
  | ptrDIR
  | ptrDirect
  | long
  | void
  deriving DecidableEq

/-- The six operations declared by the header. -/
inductive DirOp where
  | opendirOp
  | readdirOp
  | telldirOp
  | seekdirOp
  | rewinddirOp
  | closedirOp
  deriving DecidableEq

/-- The declared return type of each prototype, transcribed from the
header: `DIR *opendir`, `struct direct *readdir`, `long telldir`,
`void seekdir`, `void rewinddir`, `void closedir`. -/
def returnType : DirOp → CRetType
  | .opendirOp => .ptrDIR
  | .readdirOp => .ptrDirect
  | .telldirOp => .long
  | .seekdirOp => .void
  | .rewinddirOp => .void
  | .closedirOp => .void

/-- An operation can signal an outcome through its return value exactly
when its declared return type is not `void`. -/
def canSignalThroughReturn (op : DirOp) : Bool :=
  returnType op != .void

/-- The sequence of results the spec predicts for `k` reads starting at
position `pos` in the entry list `l`: the next entries, then
end-of-sequence signals once the list is exhausted. -/
def expectedReads (l : List RawEntry) (pos k : Nat) : List ReadResult :=
  ((l.drop pos).take k).map (fun r => ReadResult.entry (mkEntry r)) ++
    List.replicate (k - (l.length - pos)) ReadResult.endOfSequence

lemma expectedReads_cons {l : List RawEntry} {pos : Nat} {raw : RawEntry}
    (hlt : pos < l.length)
    (hdrop : l.drop pos = raw :: l.drop (pos + 1)) (k : Nat) :
    expectedReads l pos (k + 1) =
      ReadResult.entry (mkEntry raw) :: expectedReads l (pos + 1) k := by
  have hcount : k + 1 - (l.length - pos) = k - (l.length - (pos + 1)) := by
    omega
  simp [expectedReads, hdrop, hcount]

lemma nth_some_drop {l : List RawEntry} {n : Nat} {a : RawEntry}
    (h : nth l n = some a) : l.drop n = a :: l.drop (n + 1) := by
  induction l generalizing n with
  | nil => simp [nth] at h
  | cons b t ih =>
    cases n with
    | zero => simp [nth] at h; simp [h]
    | succ m => simpa using ih h

lemma nth_none_iff {l : List RawEntry} {n : Nat} :
    nth l n = none ↔ l.length ≤ n := by
  induction l generalizing n with
  | nil => simp [nth]
  | cons b t ih =>
    cases n with
    | zero => simp [nth]
    | succ m => simp [nth, ih, Nat.succ_le_succ_iff]

lemma nth_mem {l : List RawEntry} {n : Nat} {a : RawEntry}
    (h : nth l n = some a) : a ∈ l := by
  induction l generalizing n with
  | nil => simp [nth] at h
  | cons b t ih =>
    cases n with
    | zero => simp [nth] at h; simp [h]
    | succ m => exact List.mem_cons_of_mem b (ih h)

lemma opendir_ok_inv {fs : List (List Char × FSNode)} {path : List Char}
    {fresh : Nat} {d : DirStream}
    (h : opendir fs path fresh = Except.ok d) :
    d.streamId = fresh ∧ d.base = 0 ∧ d.pos = 0 ∧ d.closed = false ∧
      ∃ es, fsLookup fs path = some (FSNode.dir true es) ∧ d.entries = es := by
  unfold opendir at h
  cases hl : fsLookup fs path with
  | none => rw [hl] at h; exact absurd h (by simp)
  | some node =>
    rw [hl] at h
    cases node with
    | file => exact absurd h (by simp)
    | dir readable es =>
      cases readable with
      | false => exact absurd h (by simp)
      | true =>
        simp only [if_true] at h
        cases h
        exact ⟨rfl, rfl, rfl, rfl, es, rfl, rfl⟩

/-- The main characterisation of repeated reads on an open stream whose
entries all carry valid names: `k` reads succeed, produce the next `k`
entries (padded with end-of-sequence signals once exhausted), and leave
the position at `min (pos + k) length`. -/
lemma runReads_spec (k : Nat) (d : DirStream) (hc : d.closed = false)
    (hv : ∀ e ∈ d.entries, validName e.name = true)
    (hp : d.pos ≤ d.entries.length) :
    runReads k d = Except.ok (expectedReads d.entries d.pos k,
      { d with pos := min (d.pos + k) d.entries.length }) := by
  induction k generalizing d with
  | zero =>
    simp [runReads, expectedReads, Nat.min_eq_left hp]
  | succ k ih =>
    cases hn : nth d.entries d.pos with
    | none =>
      have hlen : d.entries.length ≤ d.pos := nth_none_iff.mp hn
      have hpos : d.pos = d.entries.length := Nat.le_antisymm hp hlen
      have hrd : readdir d = Except.ok (ReadResult.endOfSequence, d) := by
        simp [readdir, hc, hn]
      have ihd := ih d hc hv hp
      simp only [runReads, hrd, ihd]
      have hdrop : d.entries.drop d.pos = [] :=
        List.drop_eq_nil_of_le hlen
      simp [expectedReads, hdrop, hpos, List.replicate_succ,
        Nat.min_eq_right (Nat.le_add_right _ _)]
    | some raw =>
      have hlt : d.pos < d.entries.length := by
        by_contra hge
        rw [nth_none_iff.mpr (Nat.le_of_not_lt hge)] at hn
        exact absurd hn (by simp)
      have hvr : validName raw.name = true := hv raw (nth_mem hn)
      have hrd : readdir d =
          Except.ok (ReadResult.entry (mkEntry raw),
            { d with pos := d.pos + 1 }) := by
        simp [readdir, hc, hn, hvr]
      have ihd := ih { d with pos := d.pos + 1 } hc hv hlt
      simp only [runReads, hrd, ihd]
      rw [expectedReads_cons hlt (nth_some_drop hn) k]
      have harith : d.pos + 1 + k = d.pos + (k + 1) := by omega
      rw [harith]

lemma nth_some_lt {l : List RawEntry} {n : Nat} {a : RawEntry}
    (h : nth l n = some a) : n < l.length := by
  by_contra hge
  rw [nth_none_iff.mpr (Nat.le_of_not_lt hge)] at h
  exact absurd h (by simp)

lemma readdir_ok_inv {d : DirStream} {r : ReadResult} {d2 : DirStream}
    (h : readdir d = Except.ok (r, d2)) :
    d.closed = false ∧
      ((r = ReadResult.endOfSequence ∧ d2 = d ∧
          d.entries.length ≤ d.pos) ∨
        (∃ raw, nth d.entries d.pos = some raw ∧
          validName raw.name = true ∧ r = ReadResult.entry (mkEntry raw) ∧
          d2 = { d with pos := d.pos + 1 })) := by
  unfold readdir at h
  split at h
  · exact absurd h (by simp)
  · rename_i hcl
    refine ⟨by simpa using hcl, ?_⟩
    split at h
    · rename_i hn
      simp only [Except.ok.injEq, Prod.mk.injEq] at h
      exact Or.inl ⟨h.1.symm, h.2.symm, nth_none_iff.mp hn⟩
    · rename_i raw hn
      split at h
      · rename_i hv
        simp only [Except.ok.injEq, Prod.mk.injEq] at h
        exact Or.inr ⟨raw, hn, hv, h.1.symm, h.2.symm⟩
      · exact absurd h (by simp)

/-- Concrete fixture entries and streams used by the witnesses. -/
def entA : RawEntry := ⟨1, ['a']⟩

/-- A second fixture entry. -/
def entB : RawEntry := ⟨2, ['b', 'c']⟩

/-- A fixture entry whose name exceeds the short-name limit. -/
def entLong : RawEntry :=
  ⟨3, ['x', 'x', 'x', 'x', 'x', 'x', 'x', 'x', 'x', 'x', 'x', 'x', 'x']⟩

/-- A fixture open stream over two valid entries. -/
def dEx : DirStream := ⟨7, [entA, entB], 0, 0, false⟩

/-- A fixture open stream whose first entry has an over-long name. -/
def dExLong : DirStream := ⟨8, [entLong], 0, 0, false⟩

/-- A fixture filesystem: a regular file at path `f`, a readable
directory at path `d`, an unreadable directory at path `u`. -/
def fsEx : List (List Char × FSNode) :=
  [(['f'], FSNode.file),
   (['d'], FSNode.dir true [entA]),
   (['u'], FSNode.dir false [])]

/-- C2: on an open stream satisfying the positional invariant, `tell`
immediately followed by `seek` with the returned token restores the
current position, so the next `readNext` behaves exactly as it would
have without the `tell`/`seek` pair. -/
theorem tell_seek_roundtrip (d : DirStream) (hc : d.closed = false)
    (hinv : streamInv d) :
    ∃ t d2, telldir d = Except.ok t ∧ seekdir d t = Except.ok d2 ∧
      readdir d2 = readdir d := by
  refine ⟨⟨d.streamId, d.pos⟩, d, ?_, ?_, rfl⟩
  · simp [telldir, hc]
  · unfold seekdir
    have hcl : ¬(d.closed = true) := by simp [hc]
    rw [if_neg hcl, if_pos ⟨rfl, hinv.1, hinv.2⟩]

/-- Witness for C2 at a concrete stream. -/
theorem tell_seek_roundtrip_witness :
    ∃ t d2, telldir dEx = Except.ok t ∧ seekdir dEx t = Except.ok d2 ∧
      readdir d2 = readdir dEx :=
  tell_seek_roundtrip dEx rfl (by constructor <;> decide)

/-- C4: `open` fails with `NotFound` when the path is absent, with
`NotADirectory` when the path names a regular file, with
`PermissionDenied` when the directory is not readable, and otherwise
returns a stream over the entry sequence captured at open time,
positioned at the first entry (current position = base position = 0). -/
theorem opendir_cases (fs : List (List Char × FSNode)) (path : List Char)
    (fresh : Nat) :
    (fsLookup fs path = none →
      opendir fs path fresh = Except.error DirError.NotFound) ∧
    (fsLookup fs path = some FSNode.file →
      opendir fs path fresh = Except.error DirError.NotADirectory) ∧
    (∀ es, fsLookup fs path = some (FSNode.dir false es) →
      opendir fs path fresh = Except.error DirError.PermissionDenied) ∧
    (∀ es, fsLookup fs path = some (FSNode.dir true es) →
      opendir fs path fresh = Except.ok ⟨fresh, es, 0, 0, false⟩) := by
  refine ⟨?_, ?_, ?_, ?_⟩
  · intro h; simp [opendir, h]
  · intro h; simp [opendir, h]
  · intro es h; simp [opendir, h]
  · intro es h; simp [opendir, h]

/-- Witness for C4 on a concrete filesystem exercising all four
outcomes. -/
theorem opendir_cases_witness :
    opendir fsEx ['n'] 9 = Except.error DirError.NotFound ∧
    opendir fsEx ['f'] 9 = Except.error DirError.NotADirectory ∧
    opendir fsEx ['u'] 9 = Except.error DirError.PermissionDenied ∧
    opendir fsEx ['d'] 9 = Except.ok ⟨9, [entA], 0, 0, false⟩ :=
  ⟨(opendir_cases fsEx ['n'] 9).1 (by decide),
   (opendir_cases fsEx ['f'] 9).2.1 (by decide),
   (opendir_cases fsEx ['u'] 9).2.2.1 [] (by decide),
   (opendir_cases fsEx ['d'] 9).2.2.2 [entA] (by decide)⟩

/-- C5: `close` on an open stream succeeds and yields a closed stream
on which every further operation — `readNext`, `tell`, `seek`,
`rewind`, and `close` itself — fails with `UseAfterClose`: Closed is
terminal. -/
theorem close_terminal (d : DirStream) (hc : d.closed = false) :
    ∃ dc, closedir d = Except.ok dc ∧
      readdir dc = Except.error DirError.UseAfterClose ∧
      telldir dc = Except.error DirError.UseAfterClose ∧
      (∀ t, seekdir dc t = Except.error DirError.UseAfterClose) ∧
      rewinddir dc = Except.error DirError.UseAfterClose ∧
      closedir dc = Except.error DirError.UseAfterClose := by
  refine ⟨{ d with closed := true }, ?_, ?_, ?_, ?_, ?_, ?_⟩
  · simp [closedir, hc]
  · simp [readdir]
  · simp [telldir]
  · intro t; simp [seekdir]
  · simp [rewinddir]
  · simp [closedir]

/-- Witness for C5 at a concrete stream. -/
theorem close_terminal_witness :
    ∃ dc, closedir dEx = Except.ok dc ∧
      readdir dc = Except.error DirError.UseAfterClose ∧
      telldir dc = Except.error DirError.UseAfterClose ∧
      (∀ t, seekdir dc t = Except.error DirError.UseAfterClose) ∧
      rewinddir dc = Except.error DirError.UseAfterClose ∧
      closedir dc = Except.error DirError.UseAfterClose :=
  close_terminal dEx rfl

/-- C1: on a freshly positioned open stream over N entries with valid
names, exactly N `readNext` calls succeed and produce the N entries in
order, and every subsequent `readNext` call returns the end-of-sequence
signal (a normal outcome, not an error) without changing the stream. -/
theorem readdir_exact_then_end (d : DirStream) (hc : d.closed = false)
    (hp0 : d.pos = 0) (hv : ∀ e ∈ d.entries, validName e.name = true) :
    runReads d.entries.length d = Except.ok
      (d.entries.map (fun r => ReadResult.entry (mkEntry r)),
        { d with pos := d.entries.length }) ∧
    ∀ k, runReads k { d with pos := d.entries.length } =
      Except.ok (List.replicate k ReadResult.endOfSequence,
        { d with pos := d.entries.length }) := by
  constructor
  · have h := runReads_spec d.entries.length d hc hv
      (by rw [hp0]; exact Nat.zero_le _)
    rw [hp0] at h
    simpa [expectedReads] using h
  · intro k
    have h := runReads_spec k { d with pos := d.entries.length } hc hv
      (le_refl _)
    simpa [expectedReads, Nat.min_eq_right, Nat.le_add_right,
      Nat.sub_self] using h

/-- Witness for C1 at a concrete two-entry stream. -/
theorem readdir_exact_then_end_witness :
    runReads dEx.entries.length dEx = Except.ok
      (dEx.entries.map (fun r => ReadResult.entry (mkEntry r)),
        { dEx with pos := dEx.entries.length }) ∧
    runReads 3 { dEx with pos := dEx.entries.length } =
      Except.ok (List.replicate 3 ReadResult.endOfSequence,
        { dEx with pos := dEx.entries.length }) :=
  ⟨(readdir_exact_then_end dEx rfl rfl (by decide)).1,
   (readdir_exact_then_end dEx rfl rfl (by decide)).2 3⟩

/-- C3: after N `readNext` calls, `rewind` restores the stream to its
freshly opened state, and N further `readNext` calls replay exactly the
same result sequence; moreover `rewind` equals `seek` with the token of
the base position. -/
theorem rewind_replays (d : DirStream) (hc : d.closed = false)
    (hb : d.base = 0) (hp0 : d.pos = 0)
    (hv : ∀ e ∈ d.entries, validName e.name = true) :
    (∀ N, ∃ rs d1 d0, runReads N d = Except.ok (rs, d1) ∧
      rewinddir d1 = Except.ok d0 ∧ runReads N d0 = Except.ok (rs, d1)) ∧
    rewinddir d = seekdir d ⟨d.streamId, d.base⟩ := by
  have hcl : ¬(d.closed = true) := by simp [hc]
  have hback : ({ d with pos := d.base } : DirStream) = d := by
    obtain ⟨sid, es, b, p, c⟩ := d
    simp_all
  constructor
  · intro N
    have h := runReads_spec N d hc hv (by rw [hp0]; exact Nat.zero_le _)
    refine ⟨expectedReads d.entries d.pos N,
      { d with pos := min (d.pos + N) d.entries.length }, d, h, ?_, h⟩
    unfold rewinddir
    rw [if_neg hcl]
    show Except.ok ({ d with pos := d.base } : DirStream) = Except.ok d
    rw [hback]
  · unfold rewinddir seekdir
    rw [if_neg hcl, if_neg hcl,
      if_pos ⟨rfl, le_refl _, by rw [hb]; exact Nat.zero_le _⟩]

/-- Witness for C3 at a concrete two-entry stream with N = 2. -/
theorem rewind_replays_witness :
    (∃ rs d1 d0, runReads 2 dEx = Except.ok (rs, d1) ∧
      rewinddir d1 = Except.ok d0 ∧ runReads 2 d0 = Except.ok (rs, d1)) ∧
    rewinddir dEx = seekdir dEx ⟨dEx.streamId, dEx.base⟩ :=
  ⟨(rewind_replays dEx rfl rfl rfl (by decide)).1 2,
   (rewind_replays dEx rfl rfl rfl (by decide)).2⟩

/-- C6: every operation preserves the stream invariant that the
current position lies within the bounds established at open time:
`open` establishes it, and `readNext`, `tell`, `seek`, `rewind` and
`close` each preserve it on success. -/
theorem ops_preserve_bounds :
    (∀ fs path fresh d, opendir fs path fresh = Except.ok d →
      streamInv d) ∧
    (∀ d r d2, streamInv d → readdir d = Except.ok (r, d2) →
      streamInv d2) ∧
    (∀ d t, streamInv d → telldir d = Except.ok t → streamInv d) ∧
    (∀ d t d2, streamInv d → seekdir d t = Except.ok d2 →
      streamInv d2) ∧
    (∀ d d2, streamInv d → rewinddir d = Except.ok d2 → streamInv d2) ∧
    (∀ d d2, streamInv d → closedir d = Except.ok d2 → streamInv d2) := by
  refine ⟨?_, ?_, ?_, ?_, ?_, ?_⟩
  · intro fs path fresh d h
    obtain ⟨_, hb, hp, _, es, _, _⟩ := opendir_ok_inv h
    exact ⟨by rw [hb, hp], by rw [hp]; exact Nat.zero_le _⟩
  · intro d r d2 hinv h
    rcases (readdir_ok_inv h).2 with ⟨_, hd2, _⟩ | ⟨raw, hn, _, _, hd2⟩
    · rw [hd2]; exact hinv
    · subst hd2
      exact ⟨Nat.le_succ_of_le hinv.1, nth_some_lt hn⟩
  · intro d t hinv _
    exact hinv
  · intro d t d2 hinv h
    unfold seekdir at h
    split at h
    · exact absurd h (by simp)
    · split at h
      · rename_i hcond
        simp only [Except.ok.injEq] at h
        rw [← h]
        exact ⟨hcond.2.1, hcond.2.2⟩
      · exact absurd h (by simp)
  · intro d d2 hinv h
    unfold rewinddir at h
    split at h
    · exact absurd h (by simp)
    · simp only [Except.ok.injEq] at h
      rw [← h]
      exact ⟨le_refl _, le_trans hinv.1 hinv.2⟩
  · intro d d2 hinv h
    unfold closedir at h
    split at h
    · exact absurd h (by simp)
    · simp only [Except.ok.injEq] at h
      rw [← h]
      exact hinv

/-- Witness for C6: the invariant holds for a freshly opened stream and
is preserved by a concrete successful `readdir`. -/
theorem ops_preserve_bounds_witness :
    streamInv ⟨9, [entA], 0, 0, false⟩ ∧ streamInv { dEx with pos := 1 } :=
  ⟨ops_preserve_bounds.1 fsEx ['d'] 9 ⟨9, [entA], 0, 0, false⟩ (by decide),
   ops_preserve_bounds.2.1 dEx (ReadResult.entry (mkEntry entA))
     { dEx with pos := 1 } (by decide) (by decide)⟩

/-- C7: `seek` fails with `InvalidPosition` on a token that does not
carry this stream's identity — in particular on any token minted before
the stream was closed and a new stream was opened with a different
identity — while `seek` with a token obtained from `tell` on the same
still-open stream succeeds. -/
theorem seek_token_validity :
    (∀ d t, d.closed = false → ¬(t.streamId = d.streamId) →
      seekdir d t = Except.error DirError.InvalidPosition) ∧
    (∀ fs path fresh t d2, opendir fs path fresh = Except.ok d2 →
      ¬(t.streamId = fresh) →
      seekdir d2 t = Except.error DirError.InvalidPosition) ∧
    (∀ d t, d.closed = false → streamInv d → telldir d = Except.ok t →
      ∃ d2, seekdir d t = Except.ok d2) := by
  have hbase : ∀ d t, d.closed = false → ¬(t.streamId = d.streamId) →
      seekdir d t = Except.error DirError.InvalidPosition := by
    intro d t hc hne
    unfold seekdir
    rw [if_neg (show ¬(d.closed = true) by simp [hc]),
      if_neg (fun hcond => hne hcond.1)]
  refine ⟨hbase, ?_, ?_⟩
  · intro fs path fresh t d2 hopen hne
    obtain ⟨hid, _, _, hcl, _⟩ := opendir_ok_inv hopen
    exact hbase d2 t hcl (by rw [hid]; exact hne)
  · intro d t hc hinv ht
    unfold telldir at ht
    rw [if_neg (show ¬(d.closed = true) by simp [hc])] at ht
    simp only [Except.ok.injEq] at ht
    subst ht
    refine ⟨d, ?_⟩
    unfold seekdir
    rw [if_neg (show ¬(d.closed = true) by simp [hc]),
      if_pos ⟨rfl, hinv.1, hinv.2⟩]

/-- Witness for C7: a foreign token fails, a stale token fails on the
reopened stream, and a token from `tell` succeeds. -/
theorem seek_token_validity_witness :
    seekdir dEx ⟨99, 0⟩ = Except.error DirError.InvalidPosition ∧
    seekdir ⟨9, [entA], 0, 0, false⟩ ⟨7, 0⟩ =
      Except.error DirError.InvalidPosition ∧
    (∃ d2, seekdir dEx ⟨7, 0⟩ = Except.ok d2) :=
  ⟨seek_token_validity.1 dEx ⟨99, 0⟩ rfl (by decide),
   seek_token_validity.2.1 fsEx ['d'] 9 ⟨7, 0⟩ ⟨9, [entA], 0, 0, false⟩
     (by decide) (by decide),
   seek_token_validity.2.2 dEx ⟨7, 0⟩ rfl (by decide) (by decide)⟩

/-- C8: every entry produced by `readNext` has a null-free name of at
most `NAME_MAX` (12) characters with `d_namlen` equal to the name's
character count, and an over-long or null-containing raw name makes
`readNext` fail explicitly with `NameTooLong` instead of truncating. -/
theorem readdir_entry_name_bounds :
    (∀ d r d2 e, readdir d = Except.ok (r, d2) →
      r = ReadResult.entry e →
      e.d_name.length ≤ NAME_MAX ∧
      e.d_name.contains (Char.ofNat 0) = false ∧
      e.d_namlen = e.d_name.length) ∧
    (∀ d raw, d.closed = false → nth d.entries d.pos = some raw →
      validName raw.name = false →
      readdir d = Except.error DirError.NameTooLong) := by
  constructor
  · intro d r d2 e h hr
    rcases (readdir_ok_inv h).2 with ⟨hr2, _, _⟩ | ⟨raw, _, hv, hr2, _⟩
    · rw [hr] at hr2
      exact absurd hr2 (by simp)
    · rw [hr] at hr2
      injection hr2 with he
      subst he
      unfold validName at hv
      rw [Bool.and_eq_true] at hv
      obtain ⟨hlen, hnot⟩ := hv
      refine ⟨of_decide_eq_true hlen, ?_, rfl⟩
      cases hcc : raw.name.contains (Char.ofNat 0)
      · exact hcc
      · rw [hcc] at hnot
        exact absurd hnot (by simp)
  · intro d raw hc hn hvf
    unfold readdir
    rw [if_neg (show ¬(d.closed = true) by simp [hc]), hn]
    simp [hvf]

/-- Witness for C8: the produced entry for a valid name is in bounds,
and an over-long name fails with `NameTooLong`. -/
theorem readdir_entry_name_bounds_witness :
    ((mkEntry entA).d_name.length ≤ NAME_MAX ∧
      (mkEntry entA).d_name.contains (Char.ofNat 0) = false ∧
      (mkEntry entA).d_namlen = (mkEntry entA).d_name.length) ∧
    readdir dExLong = Except.error DirError.NameTooLong :=
  ⟨readdir_entry_name_bounds.1 dEx (ReadResult.entry (mkEntry entA))
      { dEx with pos := 1 } (mkEntry entA) (by decide) rfl,
   readdir_entry_name_bounds.2 dExLong entLong rfl (by decide) (by decide)⟩

/-- C9: the `DIRSIZ` macro expands to `sizeof(struct direct)` for
every argument `rp`: the argument is ignored and the reported
directory-entry size is one constant for all entries. -/
theorem DIRSIZ_constant : ∀ (α β : Type) (rp : α) (rq : β),
    DIRSIZ rp = sizeof_direct ∧ DIRSIZ rp = DIRSIZ rq :=
  fun _ _ _ _ => ⟨rfl, rfl⟩

/-- C10: `seekdir`, `rewinddir` and `closedir` are declared `void`, so
they cannot report any outcome through their return value; of the six
prototypes, exactly `opendir`, `readdir` and `telldir` have a
non-`void` return. -/
theorem void_returns_cannot_signal :
    returnType DirOp.seekdirOp = CRetType.void ∧
    returnType DirOp.rewinddirOp = CRetType.void ∧
    returnType DirOp.closedirOp = CRetType.void ∧
    (∀ op, canSignalThroughReturn op = true ↔
      (op = DirOp.opendirOp ∨ op = DirOp.readdirOp ∨
        op = DirOp.telldirOp)) := by
  refine ⟨rfl, rfl, rfl, ?_⟩
  intro op
  cases op <;> simp [canSignalThroughReturn, returnType]

end MsdosDir
